import Mathlib

/-!
Verification of the incremental file-synchronization planner from
`pkg/skaffold/build/jib/sync.go` (the jib auto-sync diff engine).

The Go code is shallowly embedded:
  * Go maps become association lists with Go-map semantics (`mapLookup`
    returns the value for a key, `mapUpdate` overwrites in place or appends);
  * the process-wide `syncLists` store becomes an explicit `Store` value that
    is threaded through `GetSyncDiff` and `InitSync`;
  * `time.Time` values are only ever compared for equality, so they are
    modelled as `Nat`;
  * the filesystem (`filepath.IsAbs`, `filepath.Abs`, `os.Stat`) and the
    external collaborators (`GetBuildDefinitions`, `getSyncMapFunc`,
    `util.RunCmdOut`, the regexp marker search and `json.Unmarshal`) are
    oracles passed in as parameters, matching the interface boundaries of the
    specification;
  * Go's aliasing of the stored map by the local `currSyncMap` variable is
    reproduced by writing the mutated map back into the store at every return
    point (`writeBack`); between a mutation and the return nothing reads the
    store, so this is observationally identical;
  * the returned triple `(toCopy, toDelete, error)` becomes `GoReturn`, where
    `none` stands for a `nil` Go map / `nil` error;
  * a ghost boolean records whether the external mapping recomputation
    (`getSyncMapFunc`) was invoked during the call.
-/

set_option maxHeartbeats 1000000

namespace JibSync

/-- One tracked source file, as in the Go `SyncEntry` struct: destination
paths, last-observed modification time, and whether the file is copied
verbatim ("direct") or is a generated artifact. -/
structure SyncEntry where
  Dest : List String
  FileTime : Nat
  IsDirect : Bool
deriving DecidableEq, Repr

/-- `SyncMap` maps absolute source paths to sync entries (Go `map[string]SyncEntry`). -/
abbrev SyncMap := List (String × SyncEntry)

/-- The `toCopy` / `toDelete` result maps (Go `map[string][]string`). -/
abbrev ToCopy := List (String × List String)

/-- The process-wide `syncLists` store, keyed by project key. -/
abbrev Store := List (String × SyncMap)

/-- A file-watcher change event (`filemon.Events`). -/
structure Events where
  Added : List String
  Modified : List String
  Deleted : List String
deriving DecidableEq, Repr

/-- The Go return triple of `GetSyncDiff`: `toCopy`, `toDelete`, `err`,
with `none` standing for Go `nil`. -/
structure GoReturn where
  toCopy : Option ToCopy
  toDelete : Option ToCopy
  err : Option String
deriving DecidableEq, Repr

/-- Filesystem oracle: `filepath.IsAbs`, `filepath.Abs` and the modification
time read off `os.Stat`. -/
structure FS where
  isAbs : String → Bool
  absOf : String → Except String String
  stat : String → Except String Nat

instance exceptDecEq {ε α : Type} [DecidableEq ε] [DecidableEq α] :
    DecidableEq (Except ε α) := fun x y =>
  match x, y with
  | Except.error a, Except.error b =>
    if h : a = b then isTrue (by rw [h])
    else isFalse (by intro hc; cases hc; exact h rfl)
  | Except.error _, Except.ok _ => isFalse (by intro hc; cases hc)
  | Except.ok _, Except.error _ => isFalse (by intro hc; cases hc)
  | Except.ok a, Except.ok b =>
    if h : a = b then isTrue (by rw [h])
    else isFalse (by intro hc; cases hc; exact h rfl)

/-- Go map read: value stored for a key, if any. -/
def mapLookup {β : Type} : List (String × β) → String → Option β
  | [], _ => none
  | p :: rest, k => if p.1 = k then some p.2 else mapLookup rest k

/-- Go map write `m[k] = v`: overwrite the entry in place, or append a new one. -/
def mapUpdate {β : Type} : List (String × β) → String → β → List (String × β)
  | [], k, v => [(k, v)]
  | p :: rest, k, v => if p.1 = k then (k, v) :: rest else p :: mapUpdate rest k v

/-- `toAbs` from sync.go: return the path unchanged if it is already absolute,
otherwise resolve it via `filepath.Abs` (which may fail). -/
def toAbs (fs : FS) (f : String) : Except String String :=
  if fs.isAbs f then Except.ok f else fs.absOf f

/-- The build-file guard loop of `GetSyncDiff`: resolve each modified path and
report whether any of them equals a build-definition file.  A resolution
failure aborts with that error. -/
def buildFileHit (fs : FS) (buildFiles : List String) : List String → Except String Bool
  | [] => Except.ok false
  | f :: rest =>
    match toAbs fs f with
    | Except.error e => Except.error e
    | Except.ok g =>
      if g ∈ buildFiles then Except.ok true else buildFileHit fs buildFiles rest

/-- The direct-file fast-path loop of `GetSyncDiff`.  For each modified path:
resolve it; if it is a direct entry of the cached map, record its destinations
in `matched` and refresh the cached entry's `FileTime` from `os.Stat`
(mutating the cached map in place); a non-direct or unknown path breaks out of
the loop.  Returns the accumulated `matched` (or a hard error) together with
the possibly mutated cached map. -/
def directLoop (fs : FS) : SyncMap → ToCopy → List String → (Except String ToCopy) × SyncMap
  | curr, matched, [] => (Except.ok matched, curr)
  | curr, matched, f :: rest =>
    match toAbs fs f with
    | Except.error e => (Except.error e, curr)
    | Except.ok g =>
      match mapLookup curr g with
      | some val =>
        if val.IsDirect then
          match fs.stat g with
          | Except.error e =>
              (Except.error ("could not obtain file mod time: " ++ e), curr)
          | Except.ok t =>
              directLoop fs (mapUpdate curr g { val with FileTime := t })
                (mapUpdate matched g val.Dest) rest
        else (Except.ok matched, curr)
      | none => (Except.ok matched, curr)

/-- The diff loop of the full-recomputation fallback: for each entry of the
new map, copy it unless the old map has the same key with an identical
`FileTime`. -/
def calcDiffAux (curr : SyncMap) : SyncMap → ToCopy → ToCopy
  | [], acc => acc
  | p :: rest, acc =>
    match mapLookup curr p.1 with
    | some c =>
      if p.2.FileTime ≠ c.FileTime then
        calcDiffAux curr rest (mapUpdate acc p.1 p.2.Dest)
      else calcDiffAux curr rest acc
    | none => calcDiffAux curr rest (mapUpdate acc p.1 p.2.Dest)

/-- The diff of the fallback path of `GetSyncDiff`: entries of `next` that are
new or whose `FileTime` differs from `curr`, mapped to their new destinations. -/
def calcDiff (curr next : SyncMap) : ToCopy := calcDiffAux curr next []

/-- Reflect the in-place mutations of the aliased `currSyncMap` back into the
store: Go's `currSyncMap := syncLists[key]` aliases the stored map when the
key is present; when the key is absent the local map is `nil` and is never
mutated (and never stored). -/
def writeBack (store : Store) (key : String) (m : SyncMap) : Store :=
  if (mapLookup store key).isSome then mapUpdate store key m else store

/-- The full-recomputation fallback of `GetSyncDiff`: invoke `getSyncMapFunc`;
on success store the new map for the project key and return the incremental
diff against the cached map; on failure propagate the error.  The final `Bool`
is the ghost "recomputation was invoked" flag. -/
def fallbackStep (syncMapFn : Except String SyncMap) (store : Store) (key : String)
    (curr : SyncMap) : GoReturn × Store × Bool :=
  match syncMapFn with
  | Except.error e => (⟨none, none, some e⟩, store, true)
  | Except.ok next =>
      (⟨some (calcDiff curr next), none, none⟩, mapUpdate store key next, true)

/-- `GetSyncDiff` from sync.go.  Arguments: filesystem oracle, the
build-definition files of the workspace (`GetBuildDefinitions`), the external
mapping recomputation (`getSyncMapFunc`), the store, the project key
(`getProjectKey(workspace, a)`), and the change event.  Returns the Go return
triple, the final store, and the ghost recomputation flag. -/
def GetSyncDiff (fs : FS) (buildFiles : List String) (syncMapFn : Except String SyncMap)
    (store : Store) (key : String) (e : Events) : GoReturn × Store × Bool :=
  match buildFileHit fs buildFiles e.Modified with
  | Except.error msg => (⟨none, none, some msg⟩, store, false)
  | Except.ok true => (⟨none, none, none⟩, store, false)
  | Except.ok false =>
    if e.Deleted.length ≠ 0 then (⟨none, none, none⟩, store, false)
    else
      let curr := (mapLookup store key).getD []
      if e.Deleted.length = 0 ∧ e.Added.length = 0 then
        match directLoop fs curr [] e.Modified with
        | (Except.error msg, curr2) =>
            (⟨none, none, some msg⟩, writeBack store key curr2, false)
        | (Except.ok matched, curr2) =>
          if matched.length = e.Modified.length then
            (⟨some matched, none, none⟩, writeBack store key curr2, false)
          else fallbackStep syncMapFn (writeBack store key curr2) key curr2
      else fallbackStep syncMapFn store key curr

/-- `InitSync` from sync.go: compute a sync map and unconditionally store it
for the project key; on failure the store is untouched. -/
def InitSync (syncMapFn : Except String SyncMap) (store : Store) (key : String) :
    Option String × Store :=
  match syncMapFn with
  | Except.error e => (some e, store)
  | Except.ok m => (none, mapUpdate store key m)

/-- One entry of the interpreter's JSON payload (`JSONSyncEntry`). -/
structure JSONSyncEntry where
  Src : String
  Dest : String
deriving DecidableEq, Repr

/-- The interpreter's JSON payload (`JSONSyncMap`): direct and generated entries. -/
structure JSONSyncMap where
  Direct : List JSONSyncEntry
  Generated : List JSONSyncEntry
deriving DecidableEq, Repr

/-- The construction loop of `getSyncMapFromSystem`: stat each listed source
file and store a sync entry with the single destination, the stat'ed
modification time and the given `IsDirect` flag; a stat failure aborts. -/
def statEntries (fs : FS) (isDir : Bool) : List JSONSyncEntry → SyncMap → Except String SyncMap
  | [], sm => Except.ok sm
  | de :: rest, sm =>
    match fs.stat de.Src with
    | Except.error e => Except.error ("could not obtain file mod time: " ++ e)
    | Except.ok t =>
        statEntries fs isDir rest
          (mapUpdate sm de.Src { Dest := [de.Dest], FileTime := t, IsDirect := isDir })

/-- The ad hoc backslash escaping of `getSyncMapFromSystem`:
`bytes.Replace(line, []byte(single backslash), []byte(double backslash), -1)`. -/
def escapeBackslashes (s : String) : String :=
  s.replace ("\x5c") ("\x5c\x5c")

/-- `getSyncMapFromSystem` from sync.go.  The subprocess invocation
(`util.RunCmdOut`), the regexp marker search and `json.Unmarshal` are oracles:
`runCmdOut` is the subprocess's standard output (or its failure), `findMarker`
returns the single-line JSON payload following the `BEGIN JIB JSON` marker if
present, and `unmarshal` parses a JSON string into the payload struct.  The
literal backslash escaping applied between the two is embedded concretely. -/
def getSyncMapFromSystem (fs : FS) (runCmdOut : Except String String)
    (findMarker : String → Option String)
    (unmarshal : String → Except String JSONSyncMap) : Except String SyncMap :=
  match runCmdOut with
  | Except.error e => Except.error ("failed to get Jib sync map: " ++ e)
  | Except.ok stdout =>
    match findMarker stdout with
    | none => Except.error ("failed to get Jib Sync data")
    | some payload =>
      match unmarshal (escapeBackslashes payload) with
      | Except.error e => Except.error e
      | Except.ok jsm =>
        match statEntries fs true jsm.Direct [] with
        | Except.error e => Except.error e
        | Except.ok sm => statEntries fs false jsm.Generated sm

/-- The observable "shape" of a sync map: keys, destinations and direct flags,
forgetting the file times.  The direct fast path refreshes file times in
place; everything else about a stored map is preserved outside the
recomputation write. -/
def shapeOf (m : SyncMap) : List (String × List String × Bool) :=
  m.map (fun p => (p.1, p.2.Dest, p.2.IsDirect))

/-- The shape of every map in the store. -/
def storeShape (store : Store) : List (String × List (String × List String × Bool)) :=
  store.map (fun p => (p.1, shapeOf p.2))

/-- All source paths listed in an interpreter payload, in the order they are
stat'ed by `getSyncMapFromSystem`. -/
def listedSrcs (jsm : JSONSyncMap) : List String :=
  jsm.Direct.map (fun de => de.Src) ++ jsm.Generated.map (fun ge => ge.Src)

/-- The view of a cached entry that the fast path can never change: its
destinations and its direct flag. -/
def ddView (o : Option SyncEntry) : Option (List String × Bool) :=
  o.map (fun en => (en.Dest, en.IsDirect))

/-- Invariant of the store: no stored sync entry has an empty destination
list. -/
def storeDestNonempty (store : Store) : Prop :=
  ∀ q ∈ store, ∀ p ∈ q.2, p.2.Dest ≠ []

/-! ### Association-map lemmas -/

theorem mapLookup_mapUpdate {β : Type} (m : List (String × β)) (k : String) (v : β)
    (k' : String) :
    mapLookup (mapUpdate m k v) k' = if k' = k then some v else mapLookup m k' := by
  induction m with
  | nil =>
    rcases eq_or_ne k' k with h | h
    · subst h; simp [mapUpdate, mapLookup]
    · simp [mapUpdate, mapLookup, h, Ne.symm h]
  | cons p rest ih =>
    rcases eq_or_ne p.1 k with hp | hp
    · rcases eq_or_ne k' k with h | h
      · subst h; simp [mapUpdate, mapLookup, hp]
      · simp [mapUpdate, mapLookup, hp, h, Ne.symm h]
    · rcases eq_or_ne p.1 k' with hpk | hpk
      · have h : k' ≠ k := by rw [← hpk]; exact hp
        simp [mapUpdate, mapLookup, hp, hpk, h]
      · simp [mapUpdate, mapLookup, hp, hpk, ih]

theorem mapUpdate_self {β : Type} (m : List (String × β)) (k : String) (v : β)
    (h : mapLookup m k = some v) : mapUpdate m k v = m := by
  induction m with
  | nil => simp [mapLookup] at h
  | cons p rest ih =>
    rcases eq_or_ne p.1 k with hp | hp
    · have h2 : p.2 = v := by simpa [mapLookup, hp] using h
      cases p with
      | mk a b =>
        simp only at hp h2
        subst hp; subst h2
        simp [mapUpdate]
    · have h' : mapLookup rest k = some v := by simpa [mapLookup, hp] using h
      simp [mapUpdate, hp, ih h']

theorem mem_of_mapLookup {β : Type} (m : List (String × β)) (k : String) (v : β)
    (h : mapLookup m k = some v) : (k, v) ∈ m := by
  induction m with
  | nil => simp [mapLookup] at h
  | cons p rest ih =>
    rcases eq_or_ne p.1 k with hp | hp
    · have h2 : p.2 = v := by simpa [mapLookup, hp] using h
      cases p with
      | mk a b =>
        simp only at hp h2
        subst hp; subst h2
        exact List.mem_cons_self _ _
    · have h' : mapLookup rest k = some v := by simpa [mapLookup, hp] using h
      exact List.mem_cons_of_mem _ (ih h')

theorem mapUpdate_mem {β : Type} (m : List (String × β)) (k : String) (v : β)
    (p : String × β) (h : p ∈ mapUpdate m k v) : p ∈ m ∨ p = (k, v) := by
  induction m with
  | nil => simp [mapUpdate] at h; right; exact h
  | cons q rest ih =>
    by_cases hq : q.1 = k
    · simp [mapUpdate, hq] at h
      rcases h with h | h
      · right; exact h
      · left; exact List.mem_cons_of_mem _ h
    · simp [mapUpdate, hq] at h
      rcases h with h | h
      · left; simp [h]
      · rcases ih h with h' | h'
        · left; exact List.mem_cons_of_mem _ h'
        · right; exact h'

theorem mapLookup_isSome_of_mem {β : Type} (m : List (String × β)) (p : String × β)
    (h : p ∈ m) : (mapLookup m p.1).isSome := by
  induction m with
  | nil => simp at h
  | cons q rest ih =>
    rcases List.mem_cons.mp h with h' | h'
    · subst h'; simp [mapLookup]
    · by_cases hq : q.1 = p.1 <;> simp [mapLookup, hq, ih h']

/-! ### Shape lemmas: the direct fast path only refreshes file times -/

theorem shapeOf_mapUpdate (m : SyncMap) (k : String) (v w : SyncEntry)
    (hl : mapLookup m k = some w) (hd : v.Dest = w.Dest) (hi : v.IsDirect = w.IsDirect) :
    shapeOf (mapUpdate m k v) = shapeOf m := by
  induction m with
  | nil => simp [mapLookup] at hl
  | cons p rest ih =>
    by_cases hp : p.1 = k
    · simp [mapLookup, hp] at hl
      simp [mapUpdate, hp, shapeOf, hd, hi, hl, hp]
    · simp [mapLookup, hp] at hl
      simp [mapUpdate, hp, shapeOf] at ih ⊢
      exact ih hl

theorem shapeOf_eq_dest_nonempty (m m' : SyncMap) (hs : shapeOf m' = shapeOf m)
    (h : ∀ p ∈ m, p.2.Dest ≠ []) : ∀ p ∈ m', p.2.Dest ≠ [] := by
  intro p hp
  have hmem : (p.1, p.2.Dest, p.2.IsDirect) ∈ shapeOf m' :=
    List.mem_map.mpr ⟨p, hp, rfl⟩
  rw [hs] at hmem
  rcases List.mem_map.mp hmem with ⟨q, hq, hEq⟩
  have hqd : q.2.Dest = p.2.Dest := congrArg (fun x => x.2.1) hEq
  rw [← hqd]
  exact h q hq

theorem directLoop_shape (fs : FS) (l : List String) :
    ∀ (curr : SyncMap) (acc : ToCopy),
      shapeOf (directLoop fs curr acc l).2 = shapeOf curr := by
  induction l with
  | nil => intro curr acc; simp [directLoop]
  | cons f rest ih =>
    intro curr acc
    simp only [directLoop]
    cases toAbs fs f with
    | error e => simp
    | ok g =>
      simp only
      cases hval : mapLookup curr g with
      | none => simp
      | some val =>
        simp only
        cases hdir : val.IsDirect with
        | false => simp [hdir]
        | true =>
          simp only [hdir, if_pos]
          cases fs.stat g with
          | error e => simp
          | ok t =>
            simp only
            rw [ih]
            exact shapeOf_mapUpdate curr g _ val hval rfl hdir.symm

theorem mapUpdate_length_notMem {β : Type} (m : List (String × β)) (k : String) (v : β)
    (h : mapLookup m k = none) : (mapUpdate m k v).length = m.length + 1 := by
  induction m with
  | nil => simp [mapUpdate]
  | cons p rest ih =>
    rcases eq_or_ne p.1 k with hp | hp
    · simp [mapLookup, hp] at h
    · have h' : mapLookup rest k = none := by simpa [mapLookup, hp] using h
      simp [mapUpdate, hp, ih h']

/-- If the filesystem reports exactly the recorded modification time for every
cached file (no intervening filesystem change), the fast-path loop leaves the
cached map untouched: each refresh writes back the value already stored. -/
theorem directLoop_statFixed (fs : FS) (l : List String) :
    ∀ (curr : SyncMap) (acc : ToCopy),
      (∀ p ∈ curr, fs.stat p.1 = Except.ok p.2.FileTime) →
      (directLoop fs curr acc l).2 = curr := by
  induction l with
  | nil => intro curr acc _; simp [directLoop]
  | cons f rest ih =>
    intro curr acc h
    simp only [directLoop]
    cases toAbs fs f with
    | error e => simp
    | ok g =>
      simp only
      cases hval : mapLookup curr g with
      | none => simp
      | some val =>
        simp only
        cases hdir : val.IsDirect with
        | false => simp [hdir]
        | true =>
          simp only [hdir, if_pos]
          have hstat := h (g, val) (mem_of_mapLookup curr g val hval)
          simp only at hstat
          rw [hstat]
          simp only
          have hv : ({ Dest := val.Dest, FileTime := val.FileTime, IsDirect := true } :
              SyncEntry) = val := by rw [← hdir]
          rw [hv, mapUpdate_self curr g val hval]
          exact ih curr _ h

/-- If every modified path resolves without hitting a build-definition file,
the guard loop reports no hit. -/
theorem buildFileHit_false (fs : FS) (buildFiles : List String) (l : List String)
    (h : ∀ f ∈ l, ∃ g, toAbs fs f = Except.ok g ∧ g ∉ buildFiles) :
    buildFileHit fs buildFiles l = Except.ok false := by
  induction l with
  | nil => rfl
  | cons f rest ih =>
    rcases h f (List.mem_cons_self _ _) with ⟨g, hg, hng⟩
    simp only [buildFileHit, hg]
    simp only [hng, if_false]
    exact ih fun f' hf' => h f' (List.mem_cons_of_mem _ hf')

/-- If every modified path resolves and at least one of them resolves to a
build-definition file, the guard loop reports a hit. -/
theorem buildFileHit_true (fs : FS) (buildFiles : List String) (l : List String)
    (hres : ∀ f ∈ l, ∃ g, toAbs fs f = Except.ok g)
    (hhit : ∃ f ∈ l, ∃ g, toAbs fs f = Except.ok g ∧ g ∈ buildFiles) :
    buildFileHit fs buildFiles l = Except.ok true := by
  induction l with
  | nil => rcases hhit with ⟨f, hf, _⟩; simp at hf
  | cons f rest ih =>
    rcases hres f (List.mem_cons_self _ _) with ⟨g, hg⟩
    by_cases hmem : g ∈ buildFiles
    · simp [buildFileHit, hg, hmem]
    · simp only [buildFileHit, hg, hmem, if_false]
      apply ih
      · exact fun f' hf' => hres f' (List.mem_cons_of_mem _ hf')
      · rcases hhit with ⟨f', hf', g', hg', hmem'⟩
        rcases List.mem_cons.mp hf' with he | h'
        · subst he
          rw [hg] at hg'
          cases hg'
          exact absurd hmem' hmem
        · exact ⟨f', h', g', hg', hmem'⟩

/-- A key absent from the new map is never touched by the fallback diff loop. -/
theorem calcDiffAux_lookup_notMem (curr : SyncMap) (next : SyncMap) (acc : ToCopy)
    (k : String) (h : mapLookup next k = none) :
    mapLookup (calcDiffAux curr next acc) k = mapLookup acc k := by
  induction next generalizing acc with
  | nil => simp [calcDiffAux]
  | cons p rest ih =>
    have hp : p.1 ≠ k := by
      intro he
      simp [mapLookup, he] at h
    have h' : mapLookup rest k = none := by simpa [mapLookup, hp] using h
    simp only [calcDiffAux]
    cases mapLookup curr p.1 with
    | none =>
      simp only
      rw [ih _ h', mapLookup_mapUpdate]
      simp [Ne.symm hp]
    | some c =>
      simp only
      rcases eq_or_ne p.2.FileTime c.FileTime with he | he
      · simp only [he, ne_eq, not_true_eq_false, if_false]
        exact ih _ h'
      · simp only [ne_eq, he, not_false_eq_true, if_true]
        rw [ih _ h', mapLookup_mapUpdate]
        simp [Ne.symm hp]

/-- Exact lookup characterization of the fallback diff loop, for a new map
with distinct keys (as every Go map has): a key of the new map is in the
result precisely when it is absent from the old map or carries a different
file time, and it is mapped to its new destination list. -/
theorem calcDiffAux_lookup (curr : SyncMap) (next : SyncMap) (acc : ToCopy)
    (hnd : (next.map Prod.fst).Nodup)
    (hdisj : ∀ k, k ∈ next.map Prod.fst → mapLookup acc k = none) (k : String) :
    mapLookup (calcDiffAux curr next acc) k =
      match mapLookup next k with
      | some e =>
        match mapLookup curr k with
        | some c => if e.FileTime ≠ c.FileTime then some e.Dest else none
        | none => some e.Dest
      | none => mapLookup acc k := by
  induction next generalizing acc with
  | nil => simp [calcDiffAux, mapLookup]
  | cons p rest ih =>
    have hnd' : (rest.map Prod.fst).Nodup := (List.nodup_cons.mp hnd).2
    have hpnot : p.1 ∉ rest.map Prod.fst := (List.nodup_cons.mp hnd).1
    rcases eq_or_ne p.1 k with hpk | hpk
    · subst hpk
      have hrest : mapLookup rest p.1 = none := by
        cases hr : mapLookup rest p.1 with
        | none => rfl
        | some v =>
          exact absurd (List.mem_map.mpr ⟨(p.1, v), mem_of_mapLookup rest p.1 v hr, rfl⟩) hpnot
      simp only [calcDiffAux, mapLookup, if_pos rfl]
      cases hc : mapLookup curr p.1 with
      | none =>
        simp only
        rw [calcDiffAux_lookup_notMem curr rest _ p.1 hrest, mapLookup_mapUpdate]
        simp
      | some c =>
        simp only
        rcases eq_or_ne p.2.FileTime c.FileTime with he | he
        · simp only [he, ne_eq, not_true_eq_false, if_false]
          rw [calcDiffAux_lookup_notMem curr rest _ p.1 hrest]
          rw [hdisj p.1 (by simp)]
          simp [he]
        · simp only [ne_eq, he, not_false_eq_true, if_true]
          rw [calcDiffAux_lookup_notMem curr rest _ p.1 hrest, mapLookup_mapUpdate]
          simp [he]
    · have hdisj' : ∀ k', k' ∈ rest.map Prod.fst → mapLookup acc k' = none :=
        fun k' hk' => hdisj k' (by simp [hk'])
      have hdisjUp : ∀ k', k' ∈ rest.map Prod.fst →
          mapLookup (mapUpdate acc p.1 p.2.Dest) k' = none := by
        intro k' hk'
        rw [mapLookup_mapUpdate]
        have : k' ≠ p.1 := by
          intro he; subst he; exact hpnot hk'
        simp [this, hdisj' k' hk']
      simp only [calcDiffAux, mapLookup, if_neg hpk]
      cases mapLookup curr p.1 with
      | none =>
        simp only
        rw [ih _ hnd' hdisjUp]
        cases mapLookup rest k with
        | none => simp [mapLookup_mapUpdate, Ne.symm hpk]
        | some e => simp
      | some c =>
        simp only
        rcases eq_or_ne p.2.FileTime c.FileTime with he | he
        · simp only [he, ne_eq, not_true_eq_false, if_false]
          exact ih _ hnd' hdisj'
        · simp only [ne_eq, he, not_false_eq_true, if_true]
          rw [ih _ hnd' hdisjUp]
          cases mapLookup rest k with
          | none => simp [mapLookup_mapUpdate, Ne.symm hpk]
          | some e => simp

/-- If every entry of the new map already occurs in the old map with an
identical file time, the fallback diff loop adds nothing. -/
theorem calcDiffAux_unchanged (curr : SyncMap) (next : SyncMap) (acc : ToCopy)
    (h : ∀ p ∈ next, ∃ c, mapLookup curr p.1 = some c ∧ c.FileTime = p.2.FileTime) :
    calcDiffAux curr next acc = acc := by
  induction next generalizing acc with
  | nil => rfl
  | cons p rest ih =>
    rcases h p (List.mem_cons_self _ _) with ⟨c, hc, ht⟩
    simp only [calcDiffAux, hc]
    simp only [ht.symm, ne_eq, not_true_eq_false, if_false]
    exact ih _ fun q hq => h q (List.mem_cons_of_mem _ hq)

/-- When every path of the batch is an absolute path that is a direct entry of
the cached map and can be stat'ed, the fast-path loop succeeds, matching every
path of the batch to its cached destinations. -/
theorem directLoop_allDirect (fs : FS) (curr0 : SyncMap) (l : List String) :
    ∀ (curr : SyncMap) (acc : ToCopy),
      (∀ k, ddView (mapLookup curr k) = ddView (mapLookup curr0 k)) →
      (∀ f ∈ l, fs.isAbs f = true ∧
        (mapLookup curr0 f).map (fun en => en.IsDirect) = some true ∧
        (fs.stat f).toOption.isSome) →
      (∀ f ∈ l, mapLookup acc f = none) →
      l.Nodup →
      ∃ (res : ToCopy) (curr2 : SyncMap),
        directLoop fs curr acc l = (Except.ok res, curr2) ∧
        res.length = acc.length + l.length ∧
        (∀ k, mapLookup res k =
          if k ∈ l then (mapLookup curr0 k).map (fun en => en.Dest)
          else mapLookup acc k) := by
  induction l with
  | nil =>
    intro curr acc _ _ _ _
    exact ⟨acc, curr, rfl, rfl, fun k => by simp⟩
  | cons f rest ih =>
    intro curr acc hview hl hacc hnd
    rcases hl f (List.mem_cons_self _ _) with ⟨habs, hdir0, hstat⟩
    rcases List.nodup_cons.mp hnd with ⟨hfnot, hnd'⟩
    cases hc0 : mapLookup curr0 f with
    | none => rw [hc0] at hdir0; simp at hdir0
    | some en0 =>
      rw [hc0] at hdir0
      have hdir : en0.IsDirect = true := by
        simpa using hdir0
      have hcv := hview f
      rw [hc0] at hcv
      cases hc : mapLookup curr f with
      | none => rw [hc] at hcv; simp [ddView] at hcv
      | some val =>
        rw [hc] at hcv
        simp only [ddView, Option.map_map, Option.map_some, Option.some.injEq] at hcv
        replace hcv : (val.Dest, val.IsDirect) = (en0.Dest, en0.IsDirect) := by
          simpa [ddView] using hcv
        have hvd : val.Dest = en0.Dest := congrArg Prod.fst hcv
        have hvdir : val.IsDirect = true := (congrArg Prod.snd hcv).trans hdir
        cases hst : fs.stat f with
        | error e => rw [hst] at hstat; simp [Except.toOption] at hstat
        | ok t =>
          have habs' : toAbs fs f = Except.ok f := by simp [toAbs, habs]
          have step :
              directLoop fs curr acc (f :: rest) =
                directLoop fs (mapUpdate curr f { val with FileTime := t })
                  (mapUpdate acc f val.Dest) rest := by
            simp only [directLoop, habs', hc, hvdir, if_pos, hst]
          have hview' : ∀ k, ddView (mapLookup (mapUpdate curr f { val with FileTime := t }) k)
              = ddView (mapLookup curr0 k) := by
            intro k
            rw [mapLookup_mapUpdate]
            rcases eq_or_ne k f with he | he
            · subst he
              rw [if_pos rfl, hc0]
              simp [ddView, hvd, hvdir, hdir]
            · rw [if_neg he]
              exact hview k
          have hl' : ∀ f' ∈ rest, fs.isAbs f' = true ∧
              (mapLookup curr0 f').map (fun en => en.IsDirect) = some true ∧
              (fs.stat f').toOption.isSome :=
            fun f' hf' => hl f' (List.mem_cons_of_mem _ hf')
          have hacc' : ∀ f' ∈ rest, mapLookup (mapUpdate acc f val.Dest) f' = none := by
            intro f' hf'
            rw [mapLookup_mapUpdate]
            have hne : f' ≠ f := fun he => hfnot (he ▸ hf')
            simp [hne, hacc f' (List.mem_cons_of_mem _ hf')]
          rcases ih (mapUpdate curr f { val with FileTime := t }) (mapUpdate acc f val.Dest)
              hview' hl' hacc' hnd' with ⟨res, curr2, hrun, hlen, hlook⟩
          refine ⟨res, curr2, step.trans hrun, ?_, ?_⟩
          · rw [hlen, mapUpdate_length_notMem acc f val.Dest (hacc f (List.mem_cons_self _ _))]
            simp [Nat.add_assoc, Nat.add_comm 1]
          · intro k
            rw [hlook k]
            rcases eq_or_ne k f with he | he
            · subst he
              have : k ∉ rest := hfnot
              simp only [this, if_false, List.mem_cons, true_or, if_true]
              rw [mapLookup_mapUpdate, if_pos rfl, hc0]
              simp [hvd]
            · by_cases hr : k ∈ rest
              · simp [hr, he]
              · simp only [hr, if_false, List.mem_cons, he, false_or, if_false]
                rw [mapLookup_mapUpdate, if_neg he]

/-- The construction loop succeeds exactly when every listed source file can
be stat'ed. -/
theorem statEntries_ok_iff (fs : FS) (b : Bool) (l : List JSONSyncEntry) :
    ∀ sm0 : SyncMap,
      (∃ sm, statEntries fs b l sm0 = Except.ok sm) ↔
      ∀ de ∈ l, (fs.stat de.Src).toOption.isSome := by
  induction l with
  | nil =>
    intro sm0
    constructor
    · intro _ de hde; simp at hde
    · intro _; exact ⟨sm0, rfl⟩
  | cons de rest ih =>
    intro sm0
    cases hst : fs.stat de.Src with
    | error e =>
      constructor
      · rintro ⟨sm, hsm⟩
        simp [statEntries, hst] at hsm
      · intro h
        have := h de (List.mem_cons_self _ _)
        rw [hst] at this
        simp [Except.toOption] at this
    | ok t =>
      constructor
      · rintro ⟨sm, hsm⟩
        simp only [statEntries, hst] at hsm
        intro de' hde'
        rcases List.mem_cons.mp hde' with he | h'
        · subst he; simp [hst, Except.toOption]
        · exact ((ih _).mp ⟨sm, hsm⟩) de' h'
      · intro h
        have hrest : ∀ de' ∈ rest, (fs.stat de'.Src).toOption.isSome :=
          fun de' hde' => h de' (List.mem_cons_of_mem _ hde')
        rcases (ih _).mpr hrest with ⟨sm, hsm⟩
        exact ⟨sm, by simp only [statEntries, hst]; exact hsm⟩

/-- Keys not listed in the batch pass through the construction loop untouched. -/
theorem statEntries_lookup_notMem (fs : FS) (b : Bool) (l : List JSONSyncEntry) :
    ∀ (sm0 sm : SyncMap) (k : String),
      statEntries fs b l sm0 = Except.ok sm →
      k ∉ l.map (fun de => de.Src) →
      mapLookup sm k = mapLookup sm0 k := by
  induction l with
  | nil =>
    intro sm0 sm k h _
    cases h; rfl
  | cons de rest ih =>
    intro sm0 sm k h hk
    cases hst : fs.stat de.Src with
    | error e => simp [statEntries, hst] at h
    | ok t =>
      simp only [statEntries, hst] at h
      have hne : k ≠ de.Src := by
        intro he; exact hk (by simp [he])
      rw [ih _ _ k h (fun hc => hk (by simp at hc ⊢; right; exact hc)),
        mapLookup_mapUpdate]
      simp [hne]

/-- Each listed source, when the batch's sources are distinct, ends up mapped
to a singleton destination list, the stat'ed time, and the given direct flag. -/
theorem statEntries_lookup_mem (fs : FS) (b : Bool) (l : List JSONSyncEntry) :
    ∀ (sm0 sm : SyncMap),
      (l.map (fun de => de.Src)).Nodup →
      statEntries fs b l sm0 = Except.ok sm →
      ∀ de ∈ l, ∃ t, fs.stat de.Src = Except.ok t ∧
        mapLookup sm de.Src =
          some { Dest := [de.Dest], FileTime := t, IsDirect := b } := by
  induction l with
  | nil => intro sm0 sm _ _ de hde; simp at hde
  | cons de0 rest ih =>
    intro sm0 sm hnd h de hde
    cases hst : fs.stat de0.Src with
    | error e => simp [statEntries, hst] at h
    | ok t0 =>
      simp only [statEntries, hst] at h
      rcases List.nodup_cons.mp hnd with ⟨hnot, hnd'⟩
      rcases List.mem_cons.mp hde with he | h'
      · subst he
        refine ⟨t0, hst, ?_⟩
        rw [statEntries_lookup_notMem fs b rest _ _ de.Src h hnot, mapLookup_mapUpdate]
        simp
      · exact ih _ _ hnd' h de h'

/-- The construction loop only ever inserts entries whose destination list is
the one-element list of the JSON destination. -/
theorem statEntries_destLen (fs : FS) (b : Bool) (l : List JSONSyncEntry) :
    ∀ (sm0 sm : SyncMap),
      (∀ p ∈ sm0, p.2.Dest.length = 1) →
      statEntries fs b l sm0 = Except.ok sm →
      ∀ p ∈ sm, p.2.Dest.length = 1 := by
  induction l with
  | nil =>
    intro sm0 sm h0 h
    cases h; exact h0
  | cons de rest ih =>
    intro sm0 sm h0 h
    cases hst : fs.stat de.Src with
    | error e => simp [statEntries, hst] at h
    | ok t =>
      simp only [statEntries, hst] at h
      refine ih _ _ ?_ h
      intro p hp
      rcases mapUpdate_mem _ _ _ p hp with hmem | he
      · exact h0 p hmem
      · subst he; rfl

theorem storeShape_mapUpdate (store : Store) (key : String) (m M : SyncMap)
    (hl : mapLookup store key = some M) (hs : shapeOf m = shapeOf M) :
    storeShape (mapUpdate store key m) = storeShape store := by
  induction store with
  | nil => simp [mapLookup] at hl
  | cons p rest ih =>
    rcases eq_or_ne p.1 key with hp | hp
    · have h2 : p.2 = M := by simpa [mapLookup, hp] using hl
      simp [mapUpdate, hp, storeShape, hs, h2, hp]
    · have hl' : mapLookup rest key = some M := by simpa [mapLookup, hp] using hl
      simp only [mapUpdate, hp, if_false, storeShape, List.map_cons, List.cons.injEq, true_and]
      exact ih hl'

theorem storeShape_writeBack (store : Store) (key : String) (m : SyncMap)
    (h : shapeOf m = shapeOf ((mapLookup store key).getD [])) :
    storeShape (writeBack store key m) = storeShape store := by
  unfold writeBack
  cases hk : mapLookup store key with
  | none => simp
  | some M =>
    rw [hk] at h
    simp only [Option.isSome_some, if_pos]
    exact storeShape_mapUpdate store key m M hk (by simpa using h)

/-- Every execution of `GetSyncDiff` ends in one of five ways: a sentinel or
guard-error return leaving the store untouched; a fast-path error or a
fast-path success, either of which writes back a cached map with unchanged
keys, destinations and direct flags; a failed recomputation, leaving a store
of unchanged shape; or a successful recomputation, which overwrites the
project key with the new map. -/
theorem GetSyncDiff_outcomes (fs : FS) (buildFiles : List String)
    (syncMapFn : Except String SyncMap) (store : Store) (key : String) (e : Events) :
    (∃ o, GetSyncDiff fs buildFiles syncMapFn store key e =
        (⟨none, none, o⟩, store, false)) ∨
    (∃ msg curr2, shapeOf curr2 = shapeOf ((mapLookup store key).getD []) ∧
      GetSyncDiff fs buildFiles syncMapFn store key e =
        (⟨none, none, some msg⟩, writeBack store key curr2, false)) ∨
    (∃ m curr2, shapeOf curr2 = shapeOf ((mapLookup store key).getD []) ∧
      GetSyncDiff fs buildFiles syncMapFn store key e =
        (⟨some m, none, none⟩, writeBack store key curr2, false)) ∨
    (∃ msg s1, storeShape s1 = storeShape store ∧ syncMapFn = Except.error msg ∧
      GetSyncDiff fs buildFiles syncMapFn store key e =
        (⟨none, none, some msg⟩, s1, true)) ∨
    (∃ next curr2 s1, storeShape s1 = storeShape store ∧ syncMapFn = Except.ok next ∧
      (curr2 = (directLoop fs ((mapLookup store key).getD []) [] e.Modified).2 ∨
        curr2 = (mapLookup store key).getD []) ∧
      GetSyncDiff fs buildFiles syncMapFn store key e =
        (⟨some (calcDiff curr2 next), none, none⟩, mapUpdate s1 key next, true)) := by
  unfold GetSyncDiff
  cases hbf : buildFileHit fs buildFiles e.Modified with
  | error msg => left; exact ⟨some msg, rfl⟩
  | ok b =>
    cases b with
    | true => left; exact ⟨none, rfl⟩
    | false =>
      simp only
      by_cases hd : e.Deleted.length ≠ 0
      · rw [if_pos hd]; left; exact ⟨none, rfl⟩
      · rw [if_neg hd]
        by_cases hc : e.Deleted.length = 0 ∧ e.Added.length = 0
        · rw [if_pos hc]
          rcases hdl : directLoop fs ((mapLookup store key).getD []) [] e.Modified
            with ⟨r, curr2⟩
          have hshape : shapeOf curr2 = shapeOf ((mapLookup store key).getD []) := by
            have hds := directLoop_shape fs e.Modified ((mapLookup store key).getD []) []
            rw [hdl] at hds
            exact hds
          cases r with
          | error msg =>
            right; left
            exact ⟨msg, curr2, hshape, rfl⟩
          | ok matched =>
            by_cases hlen : matched.length = e.Modified.length
            · right; right; left
              refine ⟨matched, curr2, hshape, ?_⟩
              simp [hlen]
            · cases hsf : syncMapFn with
              | error msg =>
                right; right; right; left
                refine ⟨msg, writeBack store key curr2,
                  storeShape_writeBack store key curr2 hshape, rfl, ?_⟩
                simp [hlen, fallbackStep]
              | ok next =>
                right; right; right; right
                refine ⟨next, curr2, writeBack store key curr2,
                  storeShape_writeBack store key curr2 hshape, rfl,
                  Or.inl rfl, ?_⟩
                simp [hlen, fallbackStep]
        · rw [if_neg hc]
          cases hsf : syncMapFn with
          | error msg =>
            right; right; right; left
            exact ⟨msg, store, rfl, rfl, by simp [fallbackStep]⟩
          | ok next =>
            right; right; right; right
            exact ⟨next, (mapLookup store key).getD [], store, rfl, rfl, Or.inr rfl,
              by simp [fallbackStep]⟩

/-! ### Claim theorems -/

/-- C1: for the full-recomputation fallback of `GetSyncDiff`, when a new sync
map `N` is obtained and `O` is the cached old map, the returned `toCopy`
contains exactly those source paths that are keys of `N` and are either absent
from `O` or whose modification time in `N` differs from their modification
time in `O`, each mapped to its destination list from `N`. -/
theorem C1_fallback_diff_exact (O N : SyncMap) (hnd : (N.map Prod.fst).Nodup) :
    (∀ (store : Store) (key : String),
      fallbackStep (Except.ok N) store key O =
        (⟨some (calcDiff O N), none, none⟩, mapUpdate store key N, true)) ∧
    (∀ k d, mapLookup (calcDiff O N) k = some d ↔
      ∃ en, mapLookup N k = some en ∧ d = en.Dest ∧
        (mapLookup O k = none ∨
          ∃ c, mapLookup O k = some c ∧ en.FileTime ≠ c.FileTime)) := by
  constructor
  · intro store key; rfl
  · intro k d
    rw [calcDiff, calcDiffAux_lookup O N [] hnd (fun _ _ => rfl) k]
    cases hn : mapLookup N k with
    | none => simp [mapLookup]
    | some en =>
      cases hc : mapLookup O k with
      | none => simp [eq_comm]
      | some c =>
        rcases eq_or_ne en.FileTime c.FileTime with he | he
        · simp [he]
        · simp [he, eq_comm]

/-- Witness for C1 at a concrete old and new map: the path whose time changed
is reported with its new destinations. -/
theorem C1_fallback_diff_exact_witness :
    mapLookup
        (calcDiff
          ([(("/w/A"), ⟨[("/c/A")], 1, true⟩), (("/w/B"), ⟨[("/c/B")], 4, false⟩)] : SyncMap)
          ([(("/w/B"), ⟨[("/c/B2")], 7, false⟩), (("/w/D"), ⟨[("/c/D")], 3, true⟩)] : SyncMap))
        ("/w/B") = some [("/c/B2")] ↔
      ∃ en, mapLookup
          ([(("/w/B"), ⟨[("/c/B2")], 7, false⟩), (("/w/D"), ⟨[("/c/D")], 3, true⟩)] : SyncMap)
          ("/w/B") = some en ∧ [("/c/B2")] = en.Dest ∧
        (mapLookup
            ([(("/w/A"), ⟨[("/c/A")], 1, true⟩), (("/w/B"), ⟨[("/c/B")], 4, false⟩)] : SyncMap)
            ("/w/B") = none ∨
          ∃ c, mapLookup
              ([(("/w/A"), ⟨[("/c/A")], 1, true⟩), (("/w/B"), ⟨[("/c/B")], 4, false⟩)] : SyncMap)
              ("/w/B") = some c ∧ en.FileTime ≠ c.FileTime) :=
  (C1_fallback_diff_exact
    ([(("/w/A"), ⟨[("/c/A")], 1, true⟩), (("/w/B"), ⟨[("/c/B")], 4, false⟩)] : SyncMap)
    ([(("/w/B"), ⟨[("/c/B2")], 7, false⟩), (("/w/D"), ⟨[("/c/D")], 3, true⟩)] : SyncMap)
    (by decide)).2 ("/w/B") [("/c/B2")]

/-- C3: if at least one modified path resolves to a build-definition file (and
every modified path resolves), `GetSyncDiff` returns the no-sync sentinel
`(nil, nil, nil)` regardless of the added and deleted sets, the store, and the
recomputation oracle — in particular the store is untouched and no
recomputation is invoked, so the guard precedes the deletion guard, the fast
path and the fallback. -/
theorem C3_buildfile_guard (fs : FS) (buildFiles : List String)
    (syncMapFn : Except String SyncMap) (store : Store) (key : String) (e : Events)
    (hres : ∀ f ∈ e.Modified, ∃ g, toAbs fs f = Except.ok g)
    (hhit : ∃ f ∈ e.Modified, ∃ g, toAbs fs f = Except.ok g ∧ g ∈ buildFiles) :
    GetSyncDiff fs buildFiles syncMapFn store key e =
      (⟨none, none, none⟩, store, false) := by
  unfold GetSyncDiff
  rw [buildFileHit_true fs buildFiles e.Modified hres hhit]

/-- Witness for C3: a modified build file forces the sentinel even with
non-empty added and deleted sets. -/
theorem C3_buildfile_guard_witness :
    GetSyncDiff ⟨fun _ => true, fun f => Except.ok f, fun _ => Except.error ("s")⟩
        [("/w/pom.xml")] (Except.error ("n"))
        [(("k"), [(("/w/A"), ⟨[("/c/A")], 1, true⟩)])] ("k")
        ⟨[("x")], [("/w/A"), ("/w/pom.xml")], [("y")]⟩ =
      (⟨none, none, none⟩, [(("k"), [(("/w/A"), ⟨[("/c/A")], 1, true⟩)])], false) :=
  C3_buildfile_guard _ _ _ _ _ _
    (fun f _ => ⟨f, rfl⟩)
    ⟨("/w/pom.xml"), by decide, ("/w/pom.xml"), rfl, by decide⟩

/-- C8: a non-empty deleted set makes `GetSyncDiff` return the no-sync
sentinel `(nil, nil, nil)` without invoking the recomputation and without
touching the store, provided no modified path is a build-definition file and
path resolution succeeds — even if every modified path is a direct entry of
the cached map. -/
theorem C8_deletion_guard (fs : FS) (buildFiles : List String)
    (syncMapFn : Except String SyncMap) (store : Store) (key : String) (e : Events)
    (hres : ∀ f ∈ e.Modified, ∃ g, toAbs fs f = Except.ok g ∧ g ∉ buildFiles)
    (hdel : e.Deleted ≠ []) :
    GetSyncDiff fs buildFiles syncMapFn store key e =
      (⟨none, none, none⟩, store, false) := by
  have hlen : e.Deleted.length ≠ 0 := fun h => hdel (List.length_eq_zero.mp h)
  unfold GetSyncDiff
  rw [buildFileHit_false fs buildFiles e.Modified hres]
  simp [hlen]

/-- Witness for C8: a deletion forces the sentinel even though the single
modified path is a direct entry of the cached map. -/
theorem C8_deletion_guard_witness :
    GetSyncDiff ⟨fun _ => true, fun f => Except.ok f, fun _ => Except.ok 2⟩
        [] (Except.error ("n"))
        [(("k"), [(("/w/A"), ⟨[("/c/A")], 1, true⟩)])] ("k")
        ⟨[], [("/w/A")], [("/w/gone")]⟩ =
      (⟨none, none, none⟩, [(("k"), [(("/w/A"), ⟨[("/c/A")], 1, true⟩)])], false) :=
  C8_deletion_guard _ _ _ _ _ _
    (fun f _ => ⟨f, rfl, by simp⟩)
    (by decide)

/-- C7: `GetSyncDiff` never reports deletions — the returned `toDelete` is
`nil` on every path — and in the fallback diff a source path absent from the
newly computed map produces no entry in the diff (so paths present only in
the old cached map are dropped silently). -/
theorem C7_no_deletions (fs : FS) (buildFiles : List String)
    (syncMapFn : Except String SyncMap) (store : Store) (key : String) (e : Events) :
    (GetSyncDiff fs buildFiles syncMapFn store key e).1.toDelete = none ∧
    (∀ (curr next : SyncMap) (k : String),
      mapLookup next k = none → mapLookup (calcDiff curr next) k = none) := by
  constructor
  · rcases GetSyncDiff_outcomes fs buildFiles syncMapFn store key e with
      ⟨o, h⟩ | ⟨msg, c2, _, h⟩ | ⟨m, c2, _, h⟩ | ⟨msg, s1, _, _, h⟩ |
      ⟨n, c2, s1, _, _, _, h⟩ <;>
      rw [h]
  · intro curr next k h
    rw [calcDiff, calcDiffAux_lookup_notMem curr next [] k h]
    rfl

/-- Witness for C7: a concrete run returns `toDelete = nil`, and a path only
in the old map is absent from the fallback diff. -/
theorem C7_no_deletions_witness :
    (GetSyncDiff ⟨fun _ => true, fun f => Except.ok f, fun _ => Except.ok 2⟩
        [] (Except.ok [(("/w/B"), ⟨[("/c/B")], 7, false⟩)])
        [(("k"), [(("/w/Z"), ⟨[("/c/Z")], 1, true⟩)])] ("k")
        ⟨[("/w/n")], [], []⟩).1.toDelete = none ∧
    mapLookup
      (calcDiff [(("/w/Z"), ⟨[("/c/Z")], 1, true⟩)]
        [(("/w/B"), ⟨[("/c/B")], 7, false⟩)]) ("/w/Z") = none :=
  ⟨(C7_no_deletions ⟨fun _ => true, fun f => Except.ok f, fun _ => Except.ok 2⟩
      [] (Except.ok [(("/w/B"), ⟨[("/c/B")], 7, false⟩)])
      [(("k"), [(("/w/Z"), ⟨[("/c/Z")], 1, true⟩)])] ("k")
      ⟨[("/w/n")], [], []⟩).1,
   (C7_no_deletions ⟨fun _ => true, fun f => Except.ok f, fun _ => Except.ok 2⟩
      [] (Except.ok [(("/w/B"), ⟨[("/c/B")], 7, false⟩)])
      [(("k"), [(("/w/Z"), ⟨[("/c/Z")], 1, true⟩)])] ("k")
      ⟨[("/w/n")], [], []⟩).2
     [(("/w/Z"), ⟨[("/c/Z")], 1, true⟩)] [(("/w/B"), ⟨[("/c/B")], 7, false⟩)]
     ("/w/Z") (by decide)⟩

/-- C2: when `added` and `deleted` are empty and every modified path is an
absolute path that is a direct entry of the cached sync map (is stat-able, and
is not a build-definition file), `GetSyncDiff` returns exactly those modified
paths mapped to their cached destination lists, with `toDelete = nil`, no
error, and without invoking the mapping-recomputation collaborator. -/
theorem C2_direct_fast_path (fs : FS) (buildFiles : List String)
    (syncMapFn : Except String SyncMap) (store : Store) (key : String) (e : Events)
    (hadd : e.Added = []) (hdel : e.Deleted = []) (hnd : e.Modified.Nodup)
    (hmod : ∀ f ∈ e.Modified, fs.isAbs f = true ∧ f ∉ buildFiles ∧
      (mapLookup ((mapLookup store key).getD []) f).map (fun en => en.IsDirect) =
        some true ∧
      (fs.stat f).toOption.isSome = true) :
    ∃ m store2,
      GetSyncDiff fs buildFiles syncMapFn store key e =
        (⟨some m, none, none⟩, store2, false) ∧
      ∀ p, mapLookup m p =
        if p ∈ e.Modified
        then (mapLookup ((mapLookup store key).getD []) p).map (fun en => en.Dest)
        else none := by
  set M := (mapLookup store key).getD [] with hM
  have hres : ∀ f ∈ e.Modified, ∃ g, toAbs fs f = Except.ok g ∧ g ∉ buildFiles := by
    intro f hf
    rcases hmod f hf with ⟨habs, hnb, _, _⟩
    exact ⟨f, by simp [toAbs, habs], hnb⟩
  have hbf := buildFileHit_false fs buildFiles e.Modified hres
  rcases directLoop_allDirect fs M e.Modified M []
      (fun _ => rfl)
      (fun f hf => ⟨(hmod f hf).1, (hmod f hf).2.2.1, (hmod f hf).2.2.2⟩)
      (fun _ _ => rfl) hnd with ⟨res, curr2, hrun, hlen, hlook⟩
  have hlen' : res.length = e.Modified.length := by simpa using hlen
  refine ⟨res, writeBack store key curr2, ?_, ?_⟩
  · unfold GetSyncDiff
    rw [hbf]
    simp [hdel, hadd, ← hM, hrun, hlen']
  · intro p
    rw [hlook p]
    by_cases hp : p ∈ e.Modified <;> simp [hp, mapLookup]

/-- Witness for C2: one modified direct file is fast-path synced to its cached
destination. -/
theorem C2_direct_fast_path_witness :
    ∃ m store2,
      GetSyncDiff ⟨fun _ => true, fun f => Except.ok f, fun _ => Except.ok 5⟩
          [("/w/pom.xml")] (Except.error ("n"))
          [(("k"), [(("/w/A"), ⟨[("/c/A")], 1, true⟩), (("/w/B"), ⟨[("/c/B")], 2, false⟩)])]
          ("k") ⟨[], [("/w/A")], []⟩ =
        (⟨some m, none, none⟩, store2, false) ∧
      ∀ p, mapLookup m p =
        if p ∈ ([("/w/A")] : List String)
        then (mapLookup
          ((mapLookup
            ([(("k"), [(("/w/A"), ⟨[("/c/A")], 1, true⟩),
              (("/w/B"), ⟨[("/c/B")], 2, false⟩)])] : Store)
            ("k")).getD []) p).map (fun en => en.Dest)
        else none :=
  C2_direct_fast_path ⟨fun _ => true, fun f => Except.ok f, fun _ => Except.ok 5⟩
    [("/w/pom.xml")] (Except.error ("n"))
    [(("k"), [(("/w/A"), ⟨[("/c/A")], 1, true⟩), (("/w/B"), ⟨[("/c/B")], 2, false⟩)])]
    ("k") ⟨[], [("/w/A")], []⟩ rfl rfl (by decide) (by decide)

/-- C4 (amended): when `GetSyncDiff` returns a hard error, it returns no
partial copy/delete instructions (`toCopy` and `toDelete` are both `nil`), and
the store keeps the same keys, and for each stored map the same source paths,
destination lists and direct flags; only `FileTime` fields already refreshed
by the partial direct fast path may differ from the state at call entry, and
the stored snapshot is replaced wholesale only after a recomputation fully
succeeds. -/
theorem C4_error_clean_abort (fs : FS) (buildFiles : List String)
    (syncMapFn : Except String SyncMap) (store : Store) (key : String) (e : Events)
    (msg : String)
    (herr : (GetSyncDiff fs buildFiles syncMapFn store key e).1.err = some msg) :
    (GetSyncDiff fs buildFiles syncMapFn store key e).1.toCopy = none ∧
    (GetSyncDiff fs buildFiles syncMapFn store key e).1.toDelete = none ∧
    storeShape (GetSyncDiff fs buildFiles syncMapFn store key e).2.1 =
      storeShape store := by
  rcases GetSyncDiff_outcomes fs buildFiles syncMapFn store key e with
    ⟨o, h⟩ | ⟨m2, c2, hs, h⟩ | ⟨m, c2, hs, h⟩ | ⟨m2, s1, hs, _, h⟩ |
    ⟨n, c2, s1, hs, _, _, h⟩
  · rw [h]
    exact ⟨rfl, rfl, rfl⟩
  · rw [h]
    exact ⟨rfl, rfl, storeShape_writeBack store key c2 hs⟩
  · rw [h] at herr
    simp at herr
  · rw [h]
    exact ⟨rfl, rfl, hs⟩
  · rw [h] at herr
    simp at herr

/-- Counterexample to C4 as stated: `/w/A` is a cached direct entry whose
on-disk time moved from 1 to 2, `/w/C` is unknown, and the recomputation
fails.  The call returns the hard error, yet the cached map for the project
key now carries the refreshed `FileTime` for `/w/A` — the store is not
"exactly what it was when the call began". -/
theorem C4_counterexample :
    ((GetSyncDiff ⟨fun _ => true, fun f => Except.ok f,
          fun f => if f = ("/w/A") then Except.ok 2 else Except.error ("nofile")⟩
        [] (Except.error ("boom"))
        [(("k"), [(("/w/A"), ⟨[("/c/A")], 1, true⟩)])] ("k")
        ⟨[], [("/w/A"), ("/w/C")], []⟩).1.err = some ("boom")) ∧
    ((GetSyncDiff ⟨fun _ => true, fun f => Except.ok f,
          fun f => if f = ("/w/A") then Except.ok 2 else Except.error ("nofile")⟩
        [] (Except.error ("boom"))
        [(("k"), [(("/w/A"), ⟨[("/c/A")], 1, true⟩)])] ("k")
        ⟨[], [("/w/A"), ("/w/C")], []⟩).2.1 ≠
      [(("k"), [(("/w/A"), ⟨[("/c/A")], 1, true⟩)])]) := by
  decide

/-- Witness for the amended C4, at the same failing run as the
counterexample: no partial instructions are returned and the store shape is
preserved. -/
theorem C4_error_clean_abort_witness :
    ((GetSyncDiff ⟨fun _ => true, fun f => Except.ok f,
          fun f => if f = ("/w/A") then Except.ok 2 else Except.error ("nofile")⟩
        [] (Except.error ("boom"))
        [(("k"), [(("/w/A"), ⟨[("/c/A")], 1, true⟩)])] ("k")
        ⟨[], [("/w/A"), ("/w/C")], []⟩).1.toCopy = none) ∧
    ((GetSyncDiff ⟨fun _ => true, fun f => Except.ok f,
          fun f => if f = ("/w/A") then Except.ok 2 else Except.error ("nofile")⟩
        [] (Except.error ("boom"))
        [(("k"), [(("/w/A"), ⟨[("/c/A")], 1, true⟩)])] ("k")
        ⟨[], [("/w/A"), ("/w/C")], []⟩).1.toDelete = none) ∧
    storeShape (GetSyncDiff ⟨fun _ => true, fun f => Except.ok f,
          fun f => if f = ("/w/A") then Except.ok 2 else Except.error ("nofile")⟩
        [] (Except.error ("boom"))
        [(("k"), [(("/w/A"), ⟨[("/c/A")], 1, true⟩)])] ("k")
        ⟨[], [("/w/A"), ("/w/C")], []⟩).2.1 =
      storeShape [(("k"), [(("/w/A"), ⟨[("/c/A")], 1, true⟩)])] :=
  C4_error_clean_abort ⟨fun _ => true, fun f => Except.ok f,
      fun f => if f = ("/w/A") then Except.ok 2 else Except.error ("nofile")⟩
    [] (Except.error ("boom"))
    [(("k"), [(("/w/A"), ⟨[("/c/A")], 1, true⟩)])] ("k")
    ⟨[], [("/w/A"), ("/w/C")], []⟩ ("boom") (by decide)

/-- C5 (amended): the stored snapshot for a project key is replaced wholesale
only by `InitSync` and by the store-write that follows a successful
recomputation; additionally, the direct fast path mutates the stored map in
place by refreshing `FileTime` fields, and every mutation outside those two
replacements preserves the store's keys and, for each stored map, the source
paths, destination lists and direct flags. -/
theorem C5_store_mutation (fs : FS) (buildFiles : List String)
    (syncMapFn : Except String SyncMap) (store : Store) (key : String) (e : Events) :
    ((GetSyncDiff fs buildFiles syncMapFn store key e).2.2 = false →
      storeShape (GetSyncDiff fs buildFiles syncMapFn store key e).2.1 =
        storeShape store) ∧
    (∀ msg, syncMapFn = Except.error msg →
      storeShape (GetSyncDiff fs buildFiles syncMapFn store key e).2.1 =
        storeShape store) ∧
    (∀ next, syncMapFn = Except.ok next →
      (GetSyncDiff fs buildFiles syncMapFn store key e).2.2 = true →
      ∃ s1, storeShape s1 = storeShape store ∧
        (GetSyncDiff fs buildFiles syncMapFn store key e).2.1 =
          mapUpdate s1 key next) ∧
    (∀ m, InitSync (Except.ok m) store key = (none, mapUpdate store key m)) ∧
    (∀ msg, InitSync (Except.error msg) store key = (some msg, store)) := by
  rcases GetSyncDiff_outcomes fs buildFiles syncMapFn store key e with
    ⟨o, h⟩ | ⟨m2, c2, hs, h⟩ | ⟨m, c2, hs, h⟩ | ⟨m2, s1, hs, hsf, h⟩ |
    ⟨n, c2, s1, hs, hsf, _, h⟩
  · exact ⟨fun _ => by rw [h], fun _ _ => by rw [h],
      fun next hn htrue => absurd (h ▸ htrue) (by simp),
      fun m => rfl, fun msg => rfl⟩
  · exact ⟨fun _ => by rw [h]; exact storeShape_writeBack store key c2 hs,
      fun _ _ => by rw [h]; exact storeShape_writeBack store key c2 hs,
      fun next hn htrue => absurd (h ▸ htrue) (by simp),
      fun m => rfl, fun msg => rfl⟩
  · exact ⟨fun _ => by rw [h]; exact storeShape_writeBack store key c2 hs,
      fun _ _ => by rw [h]; exact storeShape_writeBack store key c2 hs,
      fun next hn htrue => absurd (h ▸ htrue) (by simp),
      fun m => rfl, fun msg => rfl⟩
  · refine ⟨fun hfalse => absurd (h ▸ hfalse) (by simp),
      fun _ _ => by rw [h]; exact hs,
      fun next hn _ => ?_, fun m => rfl, fun msg => rfl⟩
    rw [hsf] at hn
    cases hn
  · refine ⟨fun hfalse => absurd (h ▸ hfalse) (by simp),
      fun msg hmsg => ?_, fun next hn _ => ?_, fun m => rfl, fun msg => rfl⟩
    · rw [hsf] at hmsg
      cases hmsg
    · rw [hsf] at hn
      cases hn
      exact ⟨s1, hs, by rw [h]⟩

/-- Counterexample to C5 as stated: a pure fast-path run (no recomputation
invoked, no `InitSync`) still changes the stored map for the project key in
place — the fast path refreshes the cached `FileTime` of `/w/A` from 1 to 2
through the aliased map. -/
theorem C5_counterexample :
    ((GetSyncDiff ⟨fun _ => true, fun f => Except.ok f, fun _ => Except.ok 2⟩
        [] (Except.error ("never"))
        [(("k"), [(("/w/A"), ⟨[("/c/A")], 1, true⟩)])] ("k")
        ⟨[], [("/w/A")], []⟩).2.2 = false) ∧
    ((GetSyncDiff ⟨fun _ => true, fun f => Except.ok f, fun _ => Except.ok 2⟩
        [] (Except.error ("never"))
        [(("k"), [(("/w/A"), ⟨[("/c/A")], 1, true⟩)])] ("k")
        ⟨[], [("/w/A")], []⟩).1.err = none) ∧
    ((GetSyncDiff ⟨fun _ => true, fun f => Except.ok f, fun _ => Except.ok 2⟩
        [] (Except.error ("never"))
        [(("k"), [(("/w/A"), ⟨[("/c/A")], 1, true⟩)])] ("k")
        ⟨[], [("/w/A")], []⟩).2.1 ≠
      [(("k"), [(("/w/A"), ⟨[("/c/A")], 1, true⟩)])]) := by
  decide

/-- Witness for the amended C5: on the fast-path run of the counterexample,
the mutation is shape-preserving. -/
theorem C5_store_mutation_witness :
    storeShape (GetSyncDiff ⟨fun _ => true, fun f => Except.ok f, fun _ => Except.ok 2⟩
        [] (Except.error ("never"))
        [(("k"), [(("/w/A"), ⟨[("/c/A")], 1, true⟩)])] ("k")
        ⟨[], [("/w/A")], []⟩).2.1 =
      storeShape [(("k"), [(("/w/A"), ⟨[("/c/A")], 1, true⟩)])] :=
  (C5_store_mutation ⟨fun _ => true, fun f => Except.ok f, fun _ => Except.ok 2⟩
    [] (Except.error ("never"))
    [(("k"), [(("/w/A"), ⟨[("/c/A")], 1, true⟩)])] ("k")
    ⟨[], [("/w/A")], []⟩).1 (by decide)

/-- Counterexample to C6 as stated: the cached map holds the direct entry
`/w/A` with time 1 and the filesystem still reports time 1 (no change).  The
first run returns `/w/A` via the fast path and its final store is passed as
the baseline of the second run, which — with no intervening filesystem
change — again returns `toCopy = {/w/A}`, not an empty map: the direct fast
path copies every modified direct file unconditionally, without comparing
modification times. -/
theorem C6_counterexample :
    ((GetSyncDiff ⟨fun _ => true, fun f => Except.ok f, fun _ => Except.ok 1⟩
        [] (Except.error ("never"))
        (GetSyncDiff ⟨fun _ => true, fun f => Except.ok f, fun _ => Except.ok 1⟩
          [] (Except.error ("never"))
          [(("k"), [(("/w/A"), ⟨[("/c/A")], 1, true⟩)])] ("k")
          ⟨[], [("/w/A")], []⟩).2.1 ("k")
        ⟨[], [("/w/A")], []⟩).1.toCopy = some [(("/w/A"), [("/c/A")])]) ∧
    some [(("/w/A"), [("/c/A")])] ≠ some ([] : ToCopy) := by
  decide

/-- C6 (amended): the second of two successive diff runs with no intervening
filesystem change yields an empty `toCopy` whenever it reaches the
full-recomputation fallback: if the baseline stored for the project key
records exactly the on-disk modification times, and the recomputed map's
entries all already occur in the baseline with identical times, then any run
that invokes the recomputation returns `toCopy = some []`.  (Runs served by
the direct fast path instead re-copy every modified direct file, see the
counterexample.) -/
theorem C6_idempotent_fallback (fs : FS) (buildFiles : List String)
    (store : Store) (key : String) (e : Events) (M next : SyncMap)
    (hM : (mapLookup store key).getD [] = M)
    (hstat : ∀ p ∈ M, fs.stat p.1 = Except.ok p.2.FileTime)
    (hcov : ∀ p ∈ next,
      (mapLookup M p.1).map (fun c => c.FileTime) = some p.2.FileTime)
    (hrec : (GetSyncDiff fs buildFiles (Except.ok next) store key e).2.2 = true) :
    (GetSyncDiff fs buildFiles (Except.ok next) store key e).1.toCopy = some [] := by
  have hcov' : ∀ p ∈ next, ∃ c, mapLookup M p.1 = some c ∧ c.FileTime = p.2.FileTime := by
    intro p hp
    have h := hcov p hp
    cases hl : mapLookup M p.1 with
    | none => rw [hl] at h; simp at h
    | some c =>
      rw [hl] at h
      exact ⟨c, rfl, by simpa using h⟩
  rcases GetSyncDiff_outcomes fs buildFiles (Except.ok next) store key e with
    ⟨o, h⟩ | ⟨m2, c2, _, h⟩ | ⟨m, c2, _, h⟩ | ⟨m2, s1, _, hsf, h⟩ |
    ⟨n, c2, s1, _, hsf, hcur, h⟩
  · rw [h] at hrec; simp at hrec
  · rw [h] at hrec; simp at hrec
  · rw [h] at hrec; simp at hrec
  · cases hsf
  · cases hsf
    rw [h]
    have hc2 : c2 = M := by
      rcases hcur with hcur | hcur
      · rw [hcur, hM]
        exact directLoop_statFixed fs e.Modified M [] hstat
      · rw [hcur, hM]
    rw [hc2]
    have hdiff := calcDiffAux_unchanged M next [] hcov'
    simp [calcDiff, hdiff]

/-- Witness for the amended C6: a modified generated file forces the
fallback; recomputation returns the unchanged map and the diff is empty. -/
theorem C6_idempotent_fallback_witness :
    (GetSyncDiff ⟨fun _ => true, fun f => Except.ok f,
        fun f => if f = ("/w/A") then Except.ok 1 else Except.ok 2⟩
      [] (Except.ok [(("/w/A"), ⟨[("/c/A")], 1, true⟩), (("/w/B"), ⟨[("/c/B")], 2, false⟩)])
      [(("k"), [(("/w/A"), ⟨[("/c/A")], 1, true⟩), (("/w/B"), ⟨[("/c/B")], 2, false⟩)])]
      ("k") ⟨[], [("/w/B")], []⟩).1.toCopy = some [] :=
  C6_idempotent_fallback ⟨fun _ => true, fun f => Except.ok f,
      fun f => if f = ("/w/A") then Except.ok 1 else Except.ok 2⟩
    [] [(("k"), [(("/w/A"), ⟨[("/c/A")], 1, true⟩), (("/w/B"), ⟨[("/c/B")], 2, false⟩)])]
    ("k") ⟨[], [("/w/B")], []⟩
    [(("/w/A"), ⟨[("/c/A")], 1, true⟩), (("/w/B"), ⟨[("/c/B")], 2, false⟩)]
    [(("/w/A"), ⟨[("/c/A")], 1, true⟩), (("/w/B"), ⟨[("/c/B")], 2, false⟩)]
    (by decide) (by decide) (by decide) (by decide)

theorem storeShape_eq_dest_nonempty (s s' : Store) (hs : storeShape s' = storeShape s)
    (h : storeDestNonempty s) : storeDestNonempty s' := by
  intro q hq
  have hmem : (q.1, shapeOf q.2) ∈ storeShape s' := List.mem_map.mpr ⟨q, hq, rfl⟩
  rw [hs] at hmem
  rcases List.mem_map.mp hmem with ⟨q0, hq0, hEq⟩
  have hsh : shapeOf q0.2 = shapeOf q.2 := congrArg Prod.snd hEq
  exact shapeOf_eq_dest_nonempty q0.2 q.2 hsh.symm (h q0 hq0)

/-- C9: every sync entry ever stored has a non-empty destination list.  Each
entry built by the interpreter-output adapter carries exactly one destination;
`InitSync` preserves the store invariant whenever the computed map satisfies
it; and `GetSyncDiff` — including the direct fast path's timestamp refresh and
the post-recomputation store — preserves the store invariant whenever the
recomputation oracle only produces maps satisfying it. -/
theorem C9_dest_nonempty :
    (∀ (fs : FS) (r : Except String String) (fm : String → Option String)
        (um : String → Except String JSONSyncMap) (sm : SyncMap),
      getSyncMapFromSystem fs r fm um = Except.ok sm →
      ∀ p ∈ sm, p.2.Dest.length = 1) ∧
    (∀ (syncMapFn : Except String SyncMap) (store : Store) (key : String),
      (∀ m, syncMapFn = Except.ok m → ∀ p ∈ m, p.2.Dest ≠ []) →
      storeDestNonempty store →
      storeDestNonempty (InitSync syncMapFn store key).2) ∧
    (∀ (fs : FS) (buildFiles : List String) (syncMapFn : Except String SyncMap)
        (store : Store) (key : String) (e : Events),
      (∀ m, syncMapFn = Except.ok m → ∀ p ∈ m, p.2.Dest ≠ []) →
      storeDestNonempty store →
      storeDestNonempty (GetSyncDiff fs buildFiles syncMapFn store key e).2.1) := by
  refine ⟨?_, ?_, ?_⟩
  · intro fs r fm um sm hok
    cases r with
    | error e => simp [getSyncMapFromSystem] at hok
    | ok out =>
      simp only [getSyncMapFromSystem] at hok
      cases hfm : fm out with
      | none => rw [hfm] at hok; simp at hok
      | some payload =>
        rw [hfm] at hok
        simp only at hok
        cases hum : um (escapeBackslashes payload) with
        | error pe => rw [hum] at hok; simp at hok
        | ok jsm =>
          rw [hum] at hok
          simp only at hok
          cases h1 : statEntries fs true jsm.Direct [] with
          | error e1 => rw [h1] at hok; simp at hok
          | ok sm1 =>
            rw [h1] at hok
            simp only at hok
            have base : ∀ p ∈ ([] : SyncMap), p.2.Dest.length = 1 := by simp
            have h1len := statEntries_destLen fs true jsm.Direct [] sm1 base h1
            exact statEntries_destLen fs false jsm.Generated sm1 sm h1len hok
  · intro syncMapFn store key hm hstore
    cases hsf : syncMapFn with
    | error msg =>
      simpa [InitSync] using hstore
    | ok m =>
      intro q hq
      simp only [InitSync] at hq
      rcases mapUpdate_mem store key m q hq with hmem | he
      · exact hstore q hmem
      · subst he
        exact hm m hsf
  · intro fs buildFiles syncMapFn store key e hm hstore
    rcases GetSyncDiff_outcomes fs buildFiles syncMapFn store key e with
      ⟨o, h⟩ | ⟨m2, c2, hs, h⟩ | ⟨mm, c2, hs, h⟩ | ⟨m2, s1, hs, _, h⟩ |
      ⟨n, c2, s1, hs, hsf, _, h⟩
    · rw [h]; exact hstore
    · rw [h]
      exact storeShape_eq_dest_nonempty store _ (storeShape_writeBack store key c2 hs) hstore
    · rw [h]
      exact storeShape_eq_dest_nonempty store _ (storeShape_writeBack store key c2 hs) hstore
    · rw [h]
      exact storeShape_eq_dest_nonempty store s1 hs hstore
    · rw [h]
      intro q hq
      rcases mapUpdate_mem s1 key n q hq with hmem | he
      · exact storeShape_eq_dest_nonempty store s1 hs hstore q hmem
      · subst he
        exact hm n hsf

/-- Witness for C9: the entry built from a one-file interpreter payload has a
one-element destination list. -/
theorem C9_dest_nonempty_witness :
    ((("/w/A"), ({ Dest := [("/c/A")], FileTime := 1, IsDirect := true } : SyncEntry)) :
        String × SyncEntry).2.Dest.length = 1 :=
  C9_dest_nonempty.1 ⟨fun _ => true, fun f => Except.ok f, fun _ => Except.ok 1⟩
    (Except.ok ("out")) (fun _ => some ("payload"))
    (fun _ => Except.ok ⟨[⟨("/w/A"), ("/c/A")⟩], []⟩)
    [(("/w/A"), ⟨[("/c/A")], 1, true⟩)] (by decide)
    (("/w/A"), ⟨[("/c/A")], 1, true⟩) (by decide)

theorem except_error_iff_not_ok {ε α : Type} (x : Except ε α) :
    (∃ msg, x = Except.error msg) ↔ ¬ ∃ a, x = Except.ok a := by
  cases x <;> simp

theorem statEntries_error_iff (fs : FS) (b : Bool) (l : List JSONSyncEntry) (sm0 : SyncMap) :
    (¬ ∃ sm, statEntries fs b l sm0 = Except.ok sm) ↔
      ∃ de ∈ l, (fs.stat de.Src).toOption = none := by
  rw [statEntries_ok_iff]
  constructor
  · intro h
    by_contra hc
    push_neg at hc
    apply h
    intro de hde
    cases hop : (fs.stat de.Src).toOption with
    | none => exact absurd hop (hc de hde)
    | some t => simp [hop]
  · rintro ⟨de, hde, hnone⟩ hall
    have hs := hall de hde
    rw [hnone] at hs
    simp at hs

/-- C10: given the subprocess's standard output, the mapping-computation
adapter fails exactly when the marker line with its JSON payload is not found,
or the JSON (after escaping literal backslashes) is malformed, or some listed
source file cannot be stat'ed; otherwise it produces a sync map in which every
generated source is mapped to its destination with `IsDirect = false` and
every direct source not also listed as generated is mapped with
`IsDirect = true`, each carrying the stat'ed modification time. -/
theorem C10_adapter (fs : FS) (fm : String → Option String)
    (um : String → Except String JSONSyncMap) (out : String) :
    ((∃ msg, getSyncMapFromSystem fs (Except.ok out) fm um = Except.error msg) ↔
      (fm out = none ∨
        ∃ payload, fm out = some payload ∧
          ((∃ pe, um (escapeBackslashes payload) = Except.error pe) ∨
            (∃ jsm, um (escapeBackslashes payload) = Except.ok jsm ∧
              ∃ src ∈ listedSrcs jsm, (fs.stat src).toOption = none)))) ∧
    (∀ payload jsm sm,
      fm out = some payload →
      um (escapeBackslashes payload) = Except.ok jsm →
      getSyncMapFromSystem fs (Except.ok out) fm um = Except.ok sm →
      (jsm.Direct.map (fun de => de.Src)).Nodup →
      (jsm.Generated.map (fun ge => ge.Src)).Nodup →
      (∀ ge ∈ jsm.Generated, ∃ t, fs.stat ge.Src = Except.ok t ∧
        mapLookup sm ge.Src = some ⟨[ge.Dest], t, false⟩) ∧
      (∀ de ∈ jsm.Direct, de.Src ∉ jsm.Generated.map (fun ge => ge.Src) →
        ∃ t, fs.stat de.Src = Except.ok t ∧
          mapLookup sm de.Src = some ⟨[de.Dest], t, true⟩)) := by
  constructor
  · cases hfm : fm out with
    | none =>
      constructor
      · intro _
        left
        rfl
      · intro _
        exact ⟨("failed to get Jib Sync data"), by simp [getSyncMapFromSystem, hfm]⟩
    | some payload =>
      cases hum : um (escapeBackslashes payload) with
      | error pe =>
        constructor
        · intro _
          exact Or.inr ⟨payload, rfl, Or.inl ⟨pe, hum⟩⟩
        · intro _
          exact ⟨pe, by simp [getSyncMapFromSystem, hfm, hum]⟩
      | ok jsm =>
        have hX : getSyncMapFromSystem fs (Except.ok out) fm um =
            (match statEntries fs true jsm.Direct [] with
             | Except.error e => Except.error e
             | Except.ok sm1 => statEntries fs false jsm.Generated sm1) := by
          simp [getSyncMapFromSystem, hfm, hum]
        rw [hX]
        constructor
        · rintro ⟨msg, hmsg⟩
          refine Or.inr ⟨payload, rfl, Or.inr ⟨jsm, hum, ?_⟩⟩
          cases h1 : statEntries fs true jsm.Direct [] with
          | error e1 =>
            have hniD : ¬ ∃ smx, statEntries fs true jsm.Direct [] = Except.ok smx := by
              rw [h1]
              rintro ⟨smx, hx⟩
              cases hx
            rcases (statEntries_error_iff fs true jsm.Direct []).mp hniD with ⟨de, hde, hfail⟩
            exact ⟨de.Src, List.mem_append_left _ (List.mem_map.mpr ⟨de, hde, rfl⟩), hfail⟩
          | ok sm1 =>
            rw [h1] at hmsg
            simp only at hmsg
            have hniG : ¬ ∃ smx, statEntries fs false jsm.Generated sm1 = Except.ok smx := by
              rintro ⟨smx, hx⟩
              rw [hmsg] at hx
              cases hx
            rcases (statEntries_error_iff fs false jsm.Generated sm1).mp hniG
              with ⟨ge, hge, hfail⟩
            exact ⟨ge.Src, List.mem_append_right _ (List.mem_map.mpr ⟨ge, hge, rfl⟩), hfail⟩
        · rintro (hnone | ⟨payload', hpl, hrest⟩)
          · cases hnone
          · cases hpl
            rcases hrest with ⟨pe, hpe⟩ | ⟨jsm', hjsm, src, hsrc, hfail⟩
            · rw [hum] at hpe
              cases hpe
            · rw [hum] at hjsm
              cases hjsm
              rcases List.mem_append.mp hsrc with hmD | hmG
              · rcases List.mem_map.mp hmD with ⟨de, hde, hsrceq⟩
                have hniD : ¬ ∃ smx, statEntries fs true jsm.Direct [] = Except.ok smx := by
                  rw [statEntries_error_iff]
                  exact ⟨de, hde, by rw [hsrceq]; exact hfail⟩
                cases h1 : statEntries fs true jsm.Direct [] with
                | error e1 => exact ⟨e1, rfl⟩
                | ok sm1 => exact absurd ⟨sm1, h1⟩ hniD
              · cases h1 : statEntries fs true jsm.Direct [] with
                | error e1 => exact ⟨e1, rfl⟩
                | ok sm1 =>
                  have hniG : ¬ ∃ smx,
                      statEntries fs false jsm.Generated sm1 = Except.ok smx := by
                    rw [statEntries_error_iff]
                    rcases List.mem_map.mp hmG with ⟨ge, hge, hsrceq⟩
                    exact ⟨ge, hge, by rw [hsrceq]; exact hfail⟩
                  cases h2 : statEntries fs false jsm.Generated sm1 with
                  | error e2 => exact ⟨e2, h2⟩
                  | ok sm2 => exact absurd ⟨sm2, h2⟩ hniG
  · intro payload jsm sm hfm hum hok hndD hndG
    simp only [getSyncMapFromSystem, hfm, hum] at hok
    cases h1 : statEntries fs true jsm.Direct [] with
    | error e1 =>
      rw [h1] at hok
      simp at hok
    | ok sm1 =>
      rw [h1] at hok
      simp only at hok
      constructor
      · exact statEntries_lookup_mem fs false jsm.Generated sm1 sm hndG hok
      · intro de hde hnot
        rcases statEntries_lookup_mem fs true jsm.Direct [] sm1 hndD h1 de hde
          with ⟨t, ht, hl⟩
        refine ⟨t, ht, ?_⟩
        rw [statEntries_lookup_notMem fs false jsm.Generated sm1 sm de.Src hok hnot]
        exact hl

/-- Witness for C10: a payload with one direct and one generated file yields a
map where the generated source carries `IsDirect = false` and the stat'ed
time. -/
theorem C10_adapter_witness :
    ∃ t, FS.stat ⟨fun _ => true, fun f => Except.ok f, fun _ => Except.ok 1⟩
        (JSONSyncEntry.Src ⟨("/w/B"), ("/c/B")⟩) = Except.ok t ∧
      mapLookup
        ([(("/w/A"), ⟨[("/c/A")], 1, true⟩), (("/w/B"), ⟨[("/c/B")], 1, false⟩)] : SyncMap)
        (JSONSyncEntry.Src ⟨("/w/B"), ("/c/B")⟩) =
        some (⟨[JSONSyncEntry.Dest ⟨("/w/B"), ("/c/B")⟩], t, false⟩ : SyncEntry) :=
  ((C10_adapter ⟨fun _ => true, fun f => Except.ok f, fun _ => Except.ok 1⟩
      (fun _ => some ("payload"))
      (fun _ => Except.ok ⟨[⟨("/w/A"), ("/c/A")⟩], [⟨("/w/B"), ("/c/B")⟩]⟩)
      ("out")).2 ("payload") ⟨[⟨("/w/A"), ("/c/A")⟩], [⟨("/w/B"), ("/c/B")⟩]⟩
      ([(("/w/A"), ⟨[("/c/A")], 1, true⟩), (("/w/B"), ⟨[("/c/B")], 1, false⟩)] : SyncMap)
      rfl rfl (by decide) (by decide) (by decide)).1
    ⟨("/w/B"), ("/c/B")⟩ (by decide)

end JibSync
